import Mathlib

/-!
Shallow embedding of the two scripts of the repository:
`scripts/generate_network.py` (the Fetcher) and `scripts/filter_network.py`
(the Filter), together with proofs of the specified properties.

Coordinates and weights are modelled as rationals; Python `round(v, k)` is
modelled as rounding `v * 10^k` to the nearest integer and dividing back.
Failure (an uncaught Python exception, e.g. `min([])`) is modelled with
`Option`: `none` means the script aborts before writing its output.
-/

namespace Website

/-- A node record of the persisted graph document:
`{id: string, x: number, y: number, label: string}`. -/
structure Node where
  id : String
  x : ℚ
  y : ℚ
  label : String
deriving DecidableEq, Repr

/-- An edge record of the persisted graph document:
`{from: string, to: string, weight: number}`. -/
structure Edge where
  «from» : String
  «to» : String
  weight : ℚ
deriving DecidableEq, Repr

/-- The graph document `{nodes: [...], edges: [...]}` stored in
`scripts/network_data.json`. -/
structure Graph where
  nodes : List Node
  edges : List Edge
deriving DecidableEq, Repr

/-- Python `min` on a list: `none` on the empty list (where Python raises
`ValueError`), otherwise the least element. -/
def pyMin : List ℚ → Option ℚ
  | [] => none
  | x :: xs =>
    match pyMin xs with
    | none => some x
    | some m => some (min x m)

/-- The hardcoded list `ref_nodes` of `filter_network.py`. -/
def ref_nodes : List String :=
  ["3339821648", "250691723", "250691724", "250698924", "250698925",
   "250698926", "250699982", "250699983", "250702474", "250700248"]

/-- `ref_x_coords = [n['x'] for n in data['nodes'] if n['id'] in ref_nodes]`. -/
def ref_x_coords (nodes : List Node) : List ℚ :=
  (nodes.filter (fun n => ref_nodes.contains n.id)).map (fun n => n.x)

/-- The whole transformation of `filter_network.py` on the loaded document:
compute `min_x = min(ref_x_coords)` (abort with `none` when the list is
empty, as `min([])` raises), keep nodes with `x >= min_x`, keep edges whose
two endpoints are kept, and return the document that is written back. -/
def filter_network (data : Graph) : Option Graph :=
  match pyMin (ref_x_coords data.nodes) with
  | none => none
  | some min_x =>
    let nodes_to_keep := data.nodes.filter (fun n => min_x ≤ n.x)
    let node_ids_to_keep := nodes_to_keep.map (fun n => n.id)
    let edges_to_keep := data.edges.filter
      (fun e => node_ids_to_keep.contains e.«from» && node_ids_to_keep.contains e.«to»)
    some ⟨nodes_to_keep, edges_to_keep⟩

/-- The effect of a run of `filter_network.py` on the content of
`scripts/network_data.json`: the file is overwritten only after the whole
computation succeeded; an exception leaves it unmodified. -/
def run_filter_file (data : Graph) : Graph :=
  (filter_network data).getD data

/-- A raw OSM node as delivered by the provider (`G.nodes(data=True)`):
an integer OSM id with its raw `x`/`y` coordinates.  `G.nodes` yields each
node id once, so the Python dict `node_positions` is faithfully modelled by
a list of these records in iteration order. -/
structure RawNode where
  node_id : Nat
  x : ℚ
  y : ℚ
deriving DecidableEq, Repr

/-- A raw OSM edge as delivered by the provider (`G.edges(data=True)`),
holding the two endpoint ids `u` and `v`. -/
structure RawEdge where
  u : Nat
  v : Nat
deriving DecidableEq, Repr

/-- Python `min` of a nonempty list (`0` on `[]`, which the guarded caller
never reaches). -/
def pyMinD : List ℚ → ℚ
  | [] => 0
  | [x] => x
  | x :: xs => min x (pyMinD xs)

/-- Python `max` of a nonempty list (`0` on `[]`, which the guarded caller
never reaches). -/
def pyMaxD : List ℚ → ℚ
  | [] => 0
  | [x] => x
  | x :: xs => max x (pyMaxD xs)

/-- Python `round(v, 2)`: round `v` to 2 decimal places. -/
def round2 (v : ℚ) : ℚ := ((round (v * 100) : ℤ) : ℚ) / 100

/-- Python `round(v, 1)`: round `v` to 1 decimal place. -/
def round1 (v : ℚ) : ℚ := ((round (v * 10) : ℤ) : ℚ) / 10

/-- The guarded scale expression
`span / range if range > 0 else 1` of `generate_network.py` lines 66-67. -/
def guarded_scale (span range : ℚ) : ℚ :=
  if range > 0 then span / range else 1

/-- The label scheme of `generate_network.py` lines 77-80:
`chr(65 + idx)` for `idx < 26`, else
`chr(65 + (idx // 26 - 1)) + chr(65 + idx % 26)`. -/
def label (idx : Nat) : String :=
  if idx < 26 then String.mk [Char.ofNat (65 + idx)]
  else String.mk [Char.ofNat (65 + (idx / 26 - 1)), Char.ofNat (65 + idx % 26)]

/-- Lines 44-45: `all_x = [pos[0] for pos in node_positions.values()]`. -/
def all_x (node_positions : List RawNode) : List ℚ :=
  node_positions.map (fun p => p.x)

/-- Lines 44-45: `all_y = [pos[1] for pos in node_positions.values()]`. -/
def all_y (node_positions : List RawNode) : List ℚ :=
  node_positions.map (fun p => p.y)

/-- Lines 46-56: the minimum of one coordinate axis after the 10% padding
(`min_x -= x_range * padding` with `padding = 0.1`). -/
def padded_min (vals : List ℚ) : ℚ :=
  pyMinD vals - (pyMaxD vals - pyMinD vals) * (1 / 10)

/-- Lines 46-56: the maximum of one coordinate axis after the 10% padding
(`max_x += x_range * padding` with `padding = 0.1`). -/
def padded_max (vals : List ℚ) : ℚ :=
  pyMaxD vals + (pyMaxD vals - pyMinD vals) * (1 / 10)

/-- Lines 58-59: the recomputed `x_range`/`y_range` after padding. -/
def padded_range (vals : List ℚ) : ℚ := padded_max vals - padded_min vals

/-- Line 62: `svg_width = 750`. -/
def svg_width : ℚ := 750

/-- Line 63: `svg_height = 550`. -/
def svg_height : ℚ := 550

/-- Line 64: `margin = 25`. -/
def margin : ℚ := 25

/-- Line 66: `scale_x = (svg_width - 2 * margin) / x_range if x_range > 0 else 1`. -/
def scale_x (node_positions : List RawNode) : ℚ :=
  guarded_scale (svg_width - 2 * margin) (padded_range (all_x node_positions))

/-- Line 67: `scale_y = (svg_height - 2 * margin) / y_range if y_range > 0 else 1`. -/
def scale_y (node_positions : List RawNode) : ℚ :=
  guarded_scale (svg_height - 2 * margin) (padded_range (all_y node_positions))

/-- Line 68: `scale = min(scale_x, scale_y)` (maintain aspect ratio). -/
def scale (node_positions : List RawNode) : ℚ :=
  min (scale_x node_positions) (scale_y node_positions)

/-- Lines 71-88: the emitted node list, one record per entry of
`node_positions` in iteration order (`enumerate`), with
`normalized = margin + (raw - min) * scale` rounded to 2 decimals and the
alphabetic label taken from the position index. -/
def fetch_nodes (node_positions : List RawNode) : List Node :=
  node_positions.enum.map (fun p =>
    { id := toString p.2.node_id,
      x := round2 (margin + (p.2.x - padded_min (all_x node_positions)) * scale node_positions),
      y := round2 (margin + (p.2.y - padded_min (all_y node_positions)) * scale node_positions),
      label := label p.1 })

/-- Line 88: the keys of `node_id_map` (every raw node id, mapped to its
string form by `str`). -/
def node_id_map (node_positions : List RawNode) : List Nat :=
  node_positions.map (fun p => p.node_id)

/-- Lines 91-99: the emitted edge list: raw edges whose endpoints are both
in `node_id_map`, in order, with the `i`-th surviving edge receiving the
`i`-th random weight rounded to 1 decimal place. -/
def fetch_edges (node_positions : List RawNode) (raw_edges : List RawEdge)
    (rand : ℕ → ℚ) : List Edge :=
  ((raw_edges.filter (fun e =>
      (node_id_map node_positions).contains e.u &&
      (node_id_map node_positions).contains e.v)).enum).map (fun p =>
    { «from» := toString p.2.u,
      «to» := toString p.2.v,
      weight := round1 (rand p.1) })

/-- The transformation of `generate_network.py` from the provider's raw
graph to the document written to `scripts/network_data.json`.
`rand i` stands for the value of the `i`-th call of `random.uniform(1, 20)`
(one call per emitted edge, in order).  When `node_positions` is empty the
whole normalization block (lines 43-99) is skipped and the initial empty
`nodes`/`edges` lists are serialized. -/
def generate_network (node_positions : List RawNode) (raw_edges : List RawEdge)
    (rand : ℕ → ℚ) : Graph :=
  if node_positions.isEmpty then ⟨[], []⟩
  else ⟨fetch_nodes node_positions, fetch_edges node_positions raw_edges rand⟩

/-- A concrete document that contains the first reference id (with `x = 5`)
together with two non-reference nodes at `x = 3` and `x = 7`. -/
def doc_with_ref : Graph :=
  ⟨[⟨"3339821648", 5, 0, "A"⟩, ⟨"n1", 3, 0, "B"⟩, ⟨"n2", 7, 0, "C"⟩],
   [⟨"n1", "n2", 2⟩, ⟨"3339821648", "n2", 3⟩]⟩

/-- The document produced by `filter_network.py` on `doc_with_ref`
(threshold `min_x = 5`). -/
def doc_with_ref_filtered : Graph :=
  ⟨[⟨"3339821648", 5, 0, "A"⟩, ⟨"n2", 7, 0, "C"⟩],
   [⟨"3339821648", "n2", 3⟩]⟩

/-- A concrete document in which no reference id occurs at all. -/
def doc_no_ref : Graph :=
  ⟨[⟨"n1", 3, 0, "B"⟩], [⟨"n1", "n1", 1⟩]⟩

/-- A character is an uppercase letter `A`-`Z`. -/
def isUpperAlpha (c : Char) : Bool := 'A' ≤ c && c ≤ 'Z'

/-- A concrete one-node raw graph delivered by the provider. -/
def pos0 : List RawNode := [⟨1, 2, 3⟩]

/-- A concrete raw edge list: one self-loop on the node of `pos0`. -/
def re0 : List RawEdge := [⟨1, 1⟩]

/-- A concrete random stream: every `random.uniform(1, 20)` call yields 10. -/
def rand0 : ℕ → ℚ := fun _ => 10

section PyMinLemmas

/-- `pyMin` returns `none` exactly on the empty list. -/
theorem pyMin_eq_none_iff (l : List ℚ) : pyMin l = none ↔ l = [] := by
  cases l with
  | nil => simp [pyMin]
  | cons x xs =>
    simp only [pyMin]
    cases pyMin xs <;> simp

/-- The value returned by `pyMin` is an element of the list. -/
theorem pyMin_mem : ∀ {l : List ℚ} {m : ℚ}, pyMin l = some m → m ∈ l := by
  intro l
  induction l with
  | nil => intro m h; simp [pyMin] at h
  | cons x xs ih =>
    intro m h
    simp only [pyMin] at h
    cases hxs : pyMin xs with
    | none => rw [hxs] at h; simp only [Option.some.injEq] at h; simp [← h]
    | some m' =>
      rw [hxs] at h
      simp only [Option.some.injEq] at h
      rcases le_total x m' with hle | hle
      · rw [min_eq_left hle] at h; simp [← h]
      · rw [min_eq_right hle] at h
        exact List.mem_cons_of_mem x (h ▸ ih hxs)

/-- The value returned by `pyMin` is a lower bound of the list. -/
theorem pyMin_le : ∀ {l : List ℚ} {m : ℚ}, pyMin l = some m → ∀ v ∈ l, m ≤ v := by
  intro l
  induction l with
  | nil => intro m h; simp [pyMin] at h
  | cons x xs ih =>
    intro m h v hv
    simp only [pyMin] at h
    cases hxs : pyMin xs with
    | none =>
      rw [hxs] at h
      simp only [Option.some.injEq] at h
      have hnil : xs = [] := (pyMin_eq_none_iff xs).mp hxs
      subst hnil
      simp at hv
      simp [← h, hv]
    | some m' =>
      rw [hxs] at h
      simp only [Option.some.injEq] at h
      rcases List.mem_cons.mp hv with rfl | hmem
      · exact h ▸ min_le_left _ _
      · exact h ▸ le_trans (min_le_right _ _) (ih hxs v hmem)

/-- A member of the list that is also a lower bound is the value of `pyMin`. -/
theorem pyMin_eq_some_of {l : List ℚ} {m : ℚ} (hm : m ∈ l)
    (hle : ∀ v ∈ l, m ≤ v) : pyMin l = some m := by
  cases l with
  | nil => simp at hm
  | cons x xs =>
    simp only [pyMin]
    cases hxs : pyMin xs with
    | none =>
      have hnil : xs = [] := (pyMin_eq_none_iff xs).mp hxs
      subst hnil
      simp at hm
      simp [hm]
    | some m' =>
      have hm' : m' ∈ xs := pyMin_mem hxs
      have h1 : min x m' ≤ m := by
        rcases List.mem_cons.mp hm with rfl | hmem
        · exact min_le_left _ _
        · exact le_trans (min_le_right _ _) (pyMin_le hxs m hmem)
      have h2 : m ≤ min x m' :=
        le_min (hle x (List.mem_cons_self x xs)) (hle m' (List.mem_cons_of_mem _ hm'))
      simp [le_antisymm h1 h2]

end PyMinLemmas

section FilterLemmas

/-- Membership in `ref_x_coords`. -/
theorem mem_ref_x_coords {nodes : List Node} {v : ℚ} :
    v ∈ ref_x_coords nodes ↔ ∃ n ∈ nodes, ref_nodes.contains n.id ∧ n.x = v := by
  simp [ref_x_coords, List.mem_map, List.mem_filter, and_assoc]

/-- The threshold computation fails exactly when no reference id occurs. -/
theorem ref_x_coords_eq_nil_iff (nodes : List Node) :
    ref_x_coords nodes = [] ↔ ∀ n ∈ nodes, n.id ∉ ref_nodes := by
  rw [ref_x_coords, List.map_eq_nil_iff, List.filter_eq_nil_iff]
  simp [List.elem_iff]

/-- `filter_network` aborts exactly when `ref_x_coords` is empty. -/
theorem filter_network_eq_none_iff (d : Graph) :
    filter_network d = none ↔ ref_x_coords d.nodes = [] := by
  rw [← pyMin_eq_none_iff]
  cases hm : pyMin (ref_x_coords d.nodes) <;> simp [filter_network, hm]

/-- Shape of a successful run of `filter_network`. -/
theorem filter_network_eq_some {d : Graph} {min_x : ℚ}
    (hm : pyMin (ref_x_coords d.nodes) = some min_x) :
    filter_network d =
      some ⟨d.nodes.filter (fun n => decide (min_x ≤ n.x)),
            d.edges.filter (fun e =>
              ((d.nodes.filter (fun n => decide (min_x ≤ n.x))).map
                  (fun n => n.id)).contains e.«from» &&
              ((d.nodes.filter (fun n => decide (min_x ≤ n.x))).map
                  (fun n => n.id)).contains e.«to»)⟩ := by
  simp only [filter_network, hm]

end FilterLemmas

/-- C1: on a document in which at least one of the ten hardcoded reference
ids occurs, `filter_network.py` succeeds, `min_x` is the minimum
x-coordinate among the nodes whose id is in the reference list, the output
node list is exactly the input nodes with `x >= min_x`, and hence every
output node has `x >= min_x`. -/
theorem filter_threshold_and_retained_nodes (d : Graph)
    (h : ∃ n ∈ d.nodes, n.id ∈ ref_nodes) :
    ∃ g, filter_network d = some g ∧
      ∃ min_x, pyMin (ref_x_coords d.nodes) = some min_x ∧
        min_x ∈ ref_x_coords d.nodes ∧
        (∀ v ∈ ref_x_coords d.nodes, min_x ≤ v) ∧
        g.nodes = d.nodes.filter (fun n => decide (min_x ≤ n.x)) ∧
        ∀ n ∈ g.nodes, min_x ≤ n.x := by
  obtain ⟨n0, hn0, hid⟩ := h
  have hmem : n0.x ∈ ref_x_coords d.nodes :=
    mem_ref_x_coords.mpr ⟨n0, hn0, List.elem_iff.mpr hid, rfl⟩
  have hne : ref_x_coords d.nodes ≠ [] := List.ne_nil_of_mem hmem
  obtain ⟨m, hm⟩ : ∃ m, pyMin (ref_x_coords d.nodes) = some m := by
    cases hpm : pyMin (ref_x_coords d.nodes) with
    | none => exact absurd ((pyMin_eq_none_iff _).mp hpm) hne
    | some m => exact ⟨m, rfl⟩
  refine ⟨_, filter_network_eq_some hm, m, hm, pyMin_mem hm, pyMin_le hm, rfl, ?_⟩
  intro n hn
  have := (List.mem_filter.mp hn).2
  exact of_decide_eq_true this

/-- C1 witness: the theorem applied to the concrete document
`doc_with_ref`, which contains the reference id `3339821648`. -/
theorem filter_threshold_and_retained_nodes_witness :
    ∃ g, filter_network doc_with_ref = some g ∧
      ∃ min_x, pyMin (ref_x_coords doc_with_ref.nodes) = some min_x ∧
        min_x ∈ ref_x_coords doc_with_ref.nodes ∧
        (∀ v ∈ ref_x_coords doc_with_ref.nodes, min_x ≤ v) ∧
        g.nodes = doc_with_ref.nodes.filter (fun n => decide (min_x ≤ n.x)) ∧
        ∀ n ∈ g.nodes, min_x ≤ n.x :=
  filter_threshold_and_retained_nodes doc_with_ref (by decide)

/-- C2: running `filter_network.py` (with its fixed reference-id list) on a
document it produced returns that document unchanged: the filter
transformation is idempotent on every input on which it succeeds. -/
theorem filter_network_idempotent (d g : Graph) (h : filter_network d = some g) :
    filter_network g = some g := by
  obtain ⟨m, hm⟩ : ∃ m, pyMin (ref_x_coords d.nodes) = some m := by
    cases hpm : pyMin (ref_x_coords d.nodes) with
    | none =>
      rw [(filter_network_eq_none_iff d).mpr ((pyMin_eq_none_iff _).mp hpm)] at h
      exact absurd h (by simp)
    | some m => exact ⟨m, rfl⟩
  rw [filter_network_eq_some hm] at h
  simp only [Option.some.injEq] at h
  subst h
  set p : Node → Bool := fun n => decide (m ≤ n.x) with hp
  set N : List Node := d.nodes.filter p with hN
  set q : Edge → Bool := fun e =>
    (N.map (fun n => n.id)).contains e.«from» &&
    (N.map (fun n => n.id)).contains e.«to» with hq
  set E : List Edge := d.edges.filter q with hE
  have hmemN : ∀ n ∈ N, p n := fun n hn => (List.mem_filter.mp hn).2
  have hminN : pyMin (ref_x_coords N) = some m := by
    obtain ⟨n1, hn1, hc, hx⟩ := mem_ref_x_coords.mp (pyMin_mem hm)
    have hn1N : n1 ∈ N := List.mem_filter.mpr ⟨hn1, by simp [hp, hx]⟩
    refine pyMin_eq_some_of (mem_ref_x_coords.mpr ⟨n1, hn1N, hc, hx⟩) ?_
    intro v hv
    obtain ⟨n2, hn2, hc2, hx2⟩ := mem_ref_x_coords.mp hv
    have h2 := hmemN n2 hn2
    rw [hp] at h2
    exact hx2 ▸ of_decide_eq_true h2
  have hNN : N.filter p = N := List.filter_eq_self.mpr hmemN
  have hEE : E.filter q = E :=
    List.filter_eq_self.mpr (fun e he => (List.mem_filter.mp he).2)
  rw [filter_network_eq_some (d := ⟨N, E⟩) hminN]
  simp only [Option.some.injEq, Graph.mk.injEq]
  rw [← hp]
  constructor
  · exact hNN
  · rw [hNN, ← hq, hEE]

/-- C2 witness: the theorem applied to the concrete run of the filter on
`doc_with_ref`, whose output is `doc_with_ref_filtered`. -/
theorem filter_network_idempotent_witness :
    filter_network doc_with_ref_filtered = some doc_with_ref_filtered :=
  filter_network_idempotent doc_with_ref doc_with_ref_filtered (by decide)

/-- C3 counterexample: the document `doc_with_ref` lacks the reference id
`250691723`, yet `filter_network.py` does not fail on it — the missing id
is silently excluded from the threshold computation and the run continues
to produce output. -/
theorem filter_missing_ref_id_still_succeeds :
    "250691723" ∈ ref_nodes ∧
    "250691723" ∉ doc_with_ref.nodes.map (fun n => n.id) ∧
    filter_network doc_with_ref = some doc_with_ref_filtered := by decide

/-- C3 amended: the Filter fails only when every reference id is absent
from the node set (so that the collected coordinate list is empty); a
reference id that is absent while another is present is silently excluded
from the threshold computation and the run continues. -/
theorem filter_fails_iff_all_ref_ids_absent (d : Graph) :
    filter_network d = none ↔ ∀ n ∈ d.nodes, n.id ∉ ref_nodes := by
  rw [filter_network_eq_none_iff, ref_x_coords_eq_nil_iff]

/-- C3 amended witness: on `doc_no_ref` every reference id is absent and
the filter indeed fails. -/
theorem filter_fails_iff_all_ref_ids_absent_witness :
    filter_network doc_no_ref = none :=
  (filter_fails_iff_all_ref_ids_absent doc_no_ref).mpr (by decide)

/-- C6: on a successful run of the Filter, an input edge appears in the
output iff both its endpoints appear in the output node list. -/
theorem edge_kept_iff_endpoints_kept (d g : Graph) (h : filter_network d = some g)
    (e : Edge) (he : e ∈ d.edges) :
    e ∈ g.edges ↔
      (e.«from» ∈ g.nodes.map (fun n => n.id) ∧
       e.«to» ∈ g.nodes.map (fun n => n.id)) := by
  obtain ⟨m, hm⟩ : ∃ m, pyMin (ref_x_coords d.nodes) = some m := by
    cases hpm : pyMin (ref_x_coords d.nodes) with
    | none =>
      rw [(filter_network_eq_none_iff d).mpr ((pyMin_eq_none_iff _).mp hpm)] at h
      exact absurd h (by simp)
    | some m => exact ⟨m, rfl⟩
  rw [filter_network_eq_some hm] at h
  simp only [Option.some.injEq] at h
  subst h
  simp [List.mem_filter, he, Bool.and_eq_true, List.elem_iff]

/-- C6 witness: the theorem applied to the surviving edge of
`doc_with_ref`. -/
theorem edge_kept_iff_endpoints_kept_witness :
    (⟨"3339821648", "n2", 3⟩ : Edge) ∈ doc_with_ref_filtered.edges ↔
      ("3339821648" ∈ doc_with_ref_filtered.nodes.map (fun n => n.id) ∧
       "n2" ∈ doc_with_ref_filtered.nodes.map (fun n => n.id)) :=
  edge_kept_iff_endpoints_kept doc_with_ref doc_with_ref_filtered (by decide)
    ⟨"3339821648", "n2", 3⟩ (by decide)

/-- C9: on a document in which no reference id occurs at all, the
threshold computation fails (`min` of an empty collection) before any
output is produced, so the file content is left unmodified. -/
theorem filter_no_ref_ids_leaves_file_unmodified (d : Graph)
    (h : ∀ n ∈ d.nodes, n.id ∉ ref_nodes) :
    filter_network d = none ∧ run_filter_file d = d := by
  have hn : filter_network d = none :=
    (filter_network_eq_none_iff d).mpr ((ref_x_coords_eq_nil_iff d.nodes).mpr h)
  exact ⟨hn, by simp [run_filter_file, hn]⟩

/-- C9 witness: the theorem applied to `doc_no_ref`. -/
theorem filter_no_ref_ids_leaves_file_unmodified_witness :
    filter_network doc_no_ref = none ∧ run_filter_file doc_no_ref = doc_no_ref :=
  filter_no_ref_ids_leaves_file_unmodified doc_no_ref (by decide)

section FetcherLemmas

/-- `pyMinD` is a lower bound of its list. -/
theorem pyMinD_le : ∀ {l : List ℚ}, ∀ v ∈ l, pyMinD l ≤ v := by
  intro l
  induction l with
  | nil => intro v hv; simp at hv
  | cons x xs ih =>
    intro v hv
    cases xs with
    | nil => simp at hv; simp [pyMinD, hv]
    | cons y ys =>
      simp only [pyMinD]
      rcases List.mem_cons.mp hv with rfl | hmem
      · exact min_le_left _ _
      · exact le_trans (min_le_right _ _) (ih v hmem)

/-- `pyMaxD` is an upper bound of its list. -/
theorem le_pyMaxD : ∀ {l : List ℚ}, ∀ v ∈ l, v ≤ pyMaxD l := by
  intro l
  induction l with
  | nil => intro v hv; simp at hv
  | cons x xs ih =>
    intro v hv
    cases xs with
    | nil => simp at hv; simp [pyMaxD, hv]
    | cons y ys =>
      simp only [pyMaxD]
      rcases List.mem_cons.mp hv with rfl | hmem
      · exact le_max_left _ _
      · exact le_trans (ih v hmem) (le_max_right _ _)

/-- Rounding to the nearest integer is monotone on `ℚ`. -/
theorem round_rat_mono {x y : ℚ} (h : x ≤ y) : round x ≤ round y := by
  rw [round_eq, round_eq]
  exact Int.floor_mono (by linarith)

/-- `round2` keeps a value between two integer bounds. -/
theorem round2_intCast_bounds {lo hi : ℤ} {v : ℚ} (hlo : (lo : ℚ) ≤ v)
    (hhi : v ≤ (hi : ℚ)) : (lo : ℚ) ≤ round2 v ∧ round2 v ≤ (hi : ℚ) := by
  have h1 : ((lo * 100 : ℤ) : ℚ) ≤ v * 100 := by push_cast; nlinarith
  have h2 : v * 100 ≤ ((hi * 100 : ℤ) : ℚ) := by push_cast; nlinarith
  have e1 : round ((lo * 100 : ℤ) : ℚ) = lo * 100 := round_intCast _
  have e2 : round ((hi * 100 : ℤ) : ℚ) = hi * 100 := round_intCast _
  have g1 : (lo * 100 : ℤ) ≤ round (v * 100) := e1 ▸ round_rat_mono h1
  have g2 : round (v * 100) ≤ (hi * 100 : ℤ) := e2 ▸ round_rat_mono h2
  have c1 : ((lo * 100 : ℤ) : ℚ) ≤ ((round (v * 100) : ℤ) : ℚ) := by exact_mod_cast g1
  have c2 : ((round (v * 100) : ℤ) : ℚ) ≤ ((hi * 100 : ℤ) : ℚ) := by exact_mod_cast g2
  constructor
  · rw [round2, le_div_iff₀ (by norm_num : (0:ℚ) < 100)]
    push_cast at c1 ⊢
    linarith
  · rw [round2, div_le_iff₀ (by norm_num : (0:ℚ) < 100)]
    push_cast at c2 ⊢
    linarith

/-- `round1` keeps a value between two integer bounds. -/
theorem round1_intCast_bounds {lo hi : ℤ} {v : ℚ} (hlo : (lo : ℚ) ≤ v)
    (hhi : v ≤ (hi : ℚ)) : (lo : ℚ) ≤ round1 v ∧ round1 v ≤ (hi : ℚ) := by
  have h1 : ((lo * 10 : ℤ) : ℚ) ≤ v * 10 := by push_cast; nlinarith
  have h2 : v * 10 ≤ ((hi * 10 : ℤ) : ℚ) := by push_cast; nlinarith
  have e1 : round ((lo * 10 : ℤ) : ℚ) = lo * 10 := round_intCast _
  have e2 : round ((hi * 10 : ℤ) : ℚ) = hi * 10 := round_intCast _
  have g1 : (lo * 10 : ℤ) ≤ round (v * 10) := e1 ▸ round_rat_mono h1
  have g2 : round (v * 10) ≤ (hi * 10 : ℤ) := e2 ▸ round_rat_mono h2
  have c1 : ((lo * 10 : ℤ) : ℚ) ≤ ((round (v * 10) : ℤ) : ℚ) := by exact_mod_cast g1
  have c2 : ((round (v * 10) : ℤ) : ℚ) ≤ ((hi * 10 : ℤ) : ℚ) := by exact_mod_cast g2
  constructor
  · rw [round1, le_div_iff₀ (by norm_num : (0:ℚ) < 10)]
    push_cast at c1 ⊢
    linarith
  · rw [round1, div_le_iff₀ (by norm_num : (0:ℚ) < 10)]
    push_cast at c2 ⊢
    linarith

/-- The guarded scale is positive whenever the target span is. -/
theorem guarded_scale_pos {span range : ℚ} (h : 0 < span) :
    0 < guarded_scale span range := by
  unfold guarded_scale
  split
  · exact div_pos h (by assumption)
  · norm_num

/-- The second component of an `enum` entry is a member of the list. -/
theorem mem_of_mem_enum {α : Type} {l : List α} {p : ℕ × α} (h : p ∈ l.enum) :
    p.2 ∈ l := by
  have he := List.enum_map_snd l
  rw [← he]
  exact List.mem_map_of_mem Prod.snd h

/-- Every member of a list appears as the second component of an `enum`
entry. -/
theorem exists_mem_enum_of_mem {α : Type} {l : List α} {a : α} (h : a ∈ l) :
    ∃ p ∈ l.enum, p.2 = a := by
  have he := List.enum_map_snd l
  rw [← he] at h
  exact List.mem_map.mp h

/-- The padded-and-uniformly-scaled offset stays inside `[0, span]`: `a`
and `b` bound the raw value `v`, and `s` is any positive scale below the
guarded per-axis scale of the padded range. -/
theorem padded_scaled_bounds (a b v span s : ℚ) (hav : a ≤ v) (hvb : v ≤ b)
    (hspan : 0 < span) (hs0 : 0 < s)
    (hsle : s ≤ guarded_scale span
      ((b + (b - a) * (1 / 10)) - (a - (b - a) * (1 / 10)))) :
    0 ≤ (v - (a - (b - a) * (1 / 10))) * s ∧
      (v - (a - (b - a) * (1 / 10))) * s ≤ span := by
  have hr : 0 ≤ b - a := by linarith
  constructor
  · apply mul_nonneg _ hs0.le
    linarith
  · rcases eq_or_lt_of_le hr with heq | hpos
    · have hva : v = a := by linarith
      have : v - (a - (b - a) * (1 / 10)) = 0 := by rw [hva, ← heq]; ring
      rw [this, zero_mul]
      exact hspan.le
    · set R : ℚ := (b + (b - a) * (1 / 10)) - (a - (b - a) * (1 / 10)) with hR
      have hRpos : 0 < R := by rw [hR]; linarith
      have hgs : guarded_scale span R = span / R := by
        unfold guarded_scale
        rw [if_pos hRpos]
      rw [hgs] at hsle
      have hvR : v - (a - (b - a) * (1 / 10)) ≤ R := by rw [hR]; linarith
      calc (v - (a - (b - a) * (1 / 10))) * s
          ≤ R * s := mul_le_mul_of_nonneg_right hvR hs0.le
        _ ≤ R * (span / R) := mul_le_mul_of_nonneg_left hsle hRpos.le
        _ = span := mul_div_cancel₀ span (ne_of_gt hRpos)

/-- The scaled offset of a raw axis value stays inside `[0, span]` for any
positive scale below the guarded per-axis scale of the padded range. -/
theorem fetch_offset_bounds (vals : List ℚ) (v : ℚ) (hv : v ∈ vals) (span s : ℚ)
    (hspan : 0 < span) (hs0 : 0 < s)
    (hsle : s ≤ guarded_scale span (padded_range vals)) :
    0 ≤ (v - padded_min vals) * s ∧ (v - padded_min vals) * s ≤ span := by
  have ha : pyMinD vals ≤ v := pyMinD_le v hv
  have hb : v ≤ pyMaxD vals := le_pyMaxD v hv
  have hsle' : s ≤ guarded_scale span
      ((pyMaxD vals + (pyMaxD vals - pyMinD vals) * (1 / 10)) -
       (pyMinD vals - (pyMaxD vals - pyMinD vals) * (1 / 10))) := by
    simpa [padded_range, padded_max, padded_min] using hsle
  have h := padded_scaled_bounds (pyMinD vals) (pyMaxD vals) v span s ha hb hspan hs0 hsle'
  simpa [padded_min] using h

/-- The emitted node ids are the stringified raw node ids, in order. -/
theorem fetch_nodes_map_id (pos : List RawNode) :
    (fetch_nodes pos).map (fun n => n.id) = pos.map (fun p => toString p.node_id) := by
  rw [fetch_nodes, List.map_map]
  conv_rhs => rw [← List.enum_map_snd pos, List.map_map]
  rfl

/-- A raw id occurring in `node_id_map` occurs (stringified) among the
emitted node ids. -/
theorem fetch_id_mem (pos : List RawNode) {u : Nat} (hu : u ∈ node_id_map pos) :
    toString u ∈ (fetch_nodes pos).map (fun n => n.id) := by
  rw [fetch_nodes_map_id]
  obtain ⟨rn, hrn, rfl⟩ := List.mem_map.mp hu
  exact List.mem_map_of_mem _ hrn

/-- Concrete evaluation of the Fetcher on the one-node raw graph `pos0`
with the self-loop `re0` and the constant random stream `rand0`. -/
theorem generate_network_concrete :
    generate_network pos0 re0 rand0 = ⟨[⟨"1", 25, 25, "A"⟩], [⟨"1", "1", 10⟩]⟩ := by
  simp [generate_network, pos0, re0, rand0, fetch_nodes, fetch_edges, node_id_map,
    all_x, all_y, padded_min, padded_max, padded_range, scale, scale_x, scale_y,
    guarded_scale, margin, svg_width, svg_height, pyMinD, pyMaxD, label, round2, round1,
    round_eq]
  norm_num
  decide

end FetcherLemmas

/-- C7: a provider result with zero nodes does not crash the Fetcher: the
run completes and emits empty node and edge lists, and the per-axis scale
expression falls back to 1 on a degenerate (zero) coordinate range instead
of dividing by zero. -/
theorem fetcher_empty_input_safe :
    (∀ re rand, generate_network [] re rand = ⟨[], []⟩) ∧
    guarded_scale (svg_width - 2 * margin) 0 = 1 ∧
    guarded_scale (svg_height - 2 * margin) 0 = 1 := by
  refine ⟨fun re rand => by simp [generate_network], ?_, ?_⟩ <;> simp [guarded_scale]

set_option maxRecDepth 100000 in
/-- C10: every label assigned to a position index below 702 consists only
of uppercase letters A-Z (one letter below index 26, two letters from index
26 on); the label at index 702 contains a character outside A-Z. -/
theorem labels_alphabetic_below_702 :
    (∀ idx, idx < 702 →
      (label idx).data.all isUpperAlpha = true ∧
      (label idx).data.length = (if idx < 26 then 1 else 2)) ∧
    702 ≤ 702 ∧ (label 702).data.all isUpperAlpha = false := by
  refine ⟨?_, by norm_num, by decide⟩
  decide

/-- C10 witness: the theorem applied at index 30, whose label `AE` is
alphabetic and two letters long. -/
theorem labels_alphabetic_below_702_witness :
    (label 30).data.all isUpperAlpha = true ∧
    (label 30).data.length = (if 30 < 26 then 1 else 2) :=
  labels_alphabetic_below_702.1 30 (by norm_num)

/-- C5: the Fetcher never emits a dangling edge — each emitted edge's
endpoints occur among the emitted node ids — and the Filter's output
document satisfies the same referential invariant. -/
theorem no_dangling_edges :
    (∀ pos re rand, ∀ e ∈ (generate_network pos re rand).edges,
      e.«from» ∈ (generate_network pos re rand).nodes.map (fun n => n.id) ∧
      e.«to» ∈ (generate_network pos re rand).nodes.map (fun n => n.id)) ∧
    (∀ d g, filter_network d = some g → ∀ e ∈ g.edges,
      e.«from» ∈ g.nodes.map (fun n => n.id) ∧
      e.«to» ∈ g.nodes.map (fun n => n.id)) := by
  constructor
  · intro pos re rand e he
    cases hemp : pos.isEmpty with
    | true => simp [generate_network, hemp] at he
    | false =>
      simp only [generate_network, hemp, Bool.false_eq_true, if_false] at he ⊢
      rw [fetch_edges] at he
      obtain ⟨p, hp, rfl⟩ := List.mem_map.mp he
      have hkept := mem_of_mem_enum hp
      have hpred := (List.mem_filter.mp hkept).2
      rw [Bool.and_eq_true] at hpred
      exact ⟨fetch_id_mem pos (List.elem_iff.mp hpred.1),
             fetch_id_mem pos (List.elem_iff.mp hpred.2)⟩
  · intro d g h e he
    obtain ⟨m, hm⟩ : ∃ m, pyMin (ref_x_coords d.nodes) = some m := by
      cases hpm : pyMin (ref_x_coords d.nodes) with
      | none =>
        rw [(filter_network_eq_none_iff d).mpr ((pyMin_eq_none_iff _).mp hpm)] at h
        exact absurd h (by simp)
      | some m => exact ⟨m, rfl⟩
    rw [filter_network_eq_some hm] at h
    simp only [Option.some.injEq] at h
    subst h
    have hq := (List.mem_filter.mp he).2
    rw [Bool.and_eq_true] at hq
    exact ⟨List.elem_iff.mp hq.1, List.elem_iff.mp hq.2⟩

/-- C5 witness: the theorem applied to the self-loop edge emitted on
`pos0` and to the surviving edge of the filtered `doc_with_ref`. -/
theorem no_dangling_edges_witness :
    ((⟨"1", "1", 10⟩ : Edge).«from» ∈
        (generate_network pos0 re0 rand0).nodes.map (fun n => n.id) ∧
     (⟨"1", "1", 10⟩ : Edge).«to» ∈
        (generate_network pos0 re0 rand0).nodes.map (fun n => n.id)) ∧
    ((⟨"3339821648", "n2", 3⟩ : Edge).«from» ∈
        doc_with_ref_filtered.nodes.map (fun n => n.id) ∧
     (⟨"3339821648", "n2", 3⟩ : Edge).«to» ∈
        doc_with_ref_filtered.nodes.map (fun n => n.id)) :=
  ⟨no_dangling_edges.1 pos0 re0 rand0 ⟨"1", "1", 10⟩
      (by rw [generate_network_concrete]; decide),
   no_dangling_edges.2 doc_with_ref doc_with_ref_filtered (by decide)
      ⟨"3339821648", "n2", 3⟩ (by decide)⟩

/-- C8: the Fetcher assigns every emitted edge a weight in `[1, 20]`
(rounding to 1 decimal keeps the interval, hence weights stay positive),
given that each `random.uniform(1, 20)` sample is in `[1, 20]`; and every
edge record retained by the Filter is an unchanged element of the input
edge list. -/
theorem edge_weights_in_range_and_untouched :
    (∀ pos re rand, (∀ i, 1 ≤ rand i ∧ rand i ≤ 20) →
      ∀ e ∈ (generate_network pos re rand).edges, 1 ≤ e.weight ∧ e.weight ≤ 20) ∧
    (∀ d g, filter_network d = some g → ∀ e ∈ g.edges, e ∈ d.edges) := by
  constructor
  · intro pos re rand hrand e he
    cases hemp : pos.isEmpty with
    | true => simp [generate_network, hemp] at he
    | false =>
      simp only [generate_network, hemp, Bool.false_eq_true, if_false] at he
      rw [fetch_edges] at he
      obtain ⟨p, hp, rfl⟩ := List.mem_map.mp he
      have h1 : ((1:ℤ):ℚ) ≤ rand p.1 := by exact_mod_cast (hrand p.1).1
      have h2 : rand p.1 ≤ ((20:ℤ):ℚ) := by exact_mod_cast (hrand p.1).2
      obtain ⟨g1, g2⟩ := round1_intCast_bounds h1 h2
      constructor
      · exact_mod_cast g1
      · exact_mod_cast g2
  · intro d g h e he
    obtain ⟨m, hm⟩ : ∃ m, pyMin (ref_x_coords d.nodes) = some m := by
      cases hpm : pyMin (ref_x_coords d.nodes) with
      | none =>
        rw [(filter_network_eq_none_iff d).mpr ((pyMin_eq_none_iff _).mp hpm)] at h
        exact absurd h (by simp)
      | some m => exact ⟨m, rfl⟩
    rw [filter_network_eq_some hm] at h
    simp only [Option.some.injEq] at h
    subst h
    exact List.mem_of_mem_filter he

/-- C8 witness: the theorem applied to the self-loop edge emitted on
`pos0` (weight 10) and to the surviving edge of the filtered
`doc_with_ref`. -/
theorem edge_weights_in_range_and_untouched_witness :
    (1 ≤ (⟨"1", "1", 10⟩ : Edge).weight ∧ (⟨"1", "1", 10⟩ : Edge).weight ≤ 20) ∧
    (⟨"3339821648", "n2", 3⟩ : Edge) ∈ doc_with_ref.edges :=
  ⟨edge_weights_in_range_and_untouched.1 pos0 re0 rand0
      (fun i => ⟨by norm_num [rand0], by norm_num [rand0]⟩) ⟨"1", "1", 10⟩
      (by rw [generate_network_concrete]; decide),
   edge_weights_in_range_and_untouched.2 doc_with_ref doc_with_ref_filtered (by decide)
      ⟨"3339821648", "n2", 3⟩ (by decide)⟩

/-- C4: after the Fetcher's normalization (10% padding, uniform scale into
the 750x550 canvas with margin 25, rounded to 2 decimals) every emitted
node has `x` in `[25, 725]` and `y` in `[25, 525]`; the bounds survive the
rounding exactly because rounding is monotone and fixes integers. -/
theorem fetcher_nodes_within_canvas (pos : List RawNode) (re : List RawEdge)
    (rand : ℕ → ℚ) (n : Node) (hn : n ∈ (generate_network pos re rand).nodes) :
    25 ≤ n.x ∧ n.x ≤ 725 ∧ 25 ≤ n.y ∧ n.y ≤ 525 := by
  cases hemp : pos.isEmpty with
  | true => simp [generate_network, hemp] at hn
  | false =>
    simp only [generate_network, hemp, Bool.false_eq_true, if_false] at hn
    rw [fetch_nodes] at hn
    obtain ⟨p, hp, rfl⟩ := List.mem_map.mp hn
    have hvx : p.2.x ∈ all_x pos := List.mem_map_of_mem _ (mem_of_mem_enum hp)
    have hvy : p.2.y ∈ all_y pos := List.mem_map_of_mem _ (mem_of_mem_enum hp)
    have hs0 : 0 < scale pos :=
      lt_min (guarded_scale_pos (by norm_num [svg_width, margin]))
             (guarded_scale_pos (by norm_num [svg_height, margin]))
    have hox := fetch_offset_bounds (all_x pos) p.2.x hvx (svg_width - 2 * margin)
      (scale pos) (by norm_num [svg_width, margin]) hs0 (min_le_left _ _)
    have hoy := fetch_offset_bounds (all_y pos) p.2.y hvy (svg_height - 2 * margin)
      (scale pos) (by norm_num [svg_height, margin]) hs0 (min_le_right _ _)
    have hwx : svg_width - 2 * margin = 700 := by norm_num [svg_width, margin]
    have hwy : svg_height - 2 * margin = 500 := by norm_num [svg_height, margin]
    rw [hwx] at hox
    rw [hwy] at hoy
    have hm25 : margin = 25 := by norm_num [margin]
    have hbx1 : ((25:ℤ):ℚ) ≤ margin + (p.2.x - padded_min (all_x pos)) * scale pos := by
      push_cast
      rw [hm25]
      linarith [hox.1]
    have hbx2 : margin + (p.2.x - padded_min (all_x pos)) * scale pos ≤ ((725:ℤ):ℚ) := by
      push_cast
      rw [hm25]
      linarith [hox.2]
    have hby1 : ((25:ℤ):ℚ) ≤ margin + (p.2.y - padded_min (all_y pos)) * scale pos := by
      push_cast
      rw [hm25]
      linarith [hoy.1]
    have hby2 : margin + (p.2.y - padded_min (all_y pos)) * scale pos ≤ ((525:ℤ):ℚ) := by
      push_cast
      rw [hm25]
      linarith [hoy.2]
    obtain ⟨hrx1, hrx2⟩ := round2_intCast_bounds hbx1 hbx2
    obtain ⟨hry1, hry2⟩ := round2_intCast_bounds hby1 hby2
    exact ⟨by exact_mod_cast hrx1, by exact_mod_cast hrx2,
           by exact_mod_cast hry1, by exact_mod_cast hry2⟩

/-- C4 witness: the theorem applied to the single node emitted on `pos0`,
which lands at the canvas corner `(25, 25)`. -/
theorem fetcher_nodes_within_canvas_witness :
    25 ≤ (⟨"1", 25, 25, "A"⟩ : Node).x ∧ (⟨"1", 25, 25, "A"⟩ : Node).x ≤ 725 ∧
    25 ≤ (⟨"1", 25, 25, "A"⟩ : Node).y ∧ (⟨"1", 25, 25, "A"⟩ : Node).y ≤ 525 :=
  fetcher_nodes_within_canvas pos0 re0 rand0 ⟨"1", 25, 25, "A"⟩
    (by rw [generate_network_concrete]; decide)

end Website
